import Mathlib

/-!
Verification of the synchronous blob-replication layer
(`pkg/blobserver/replica/replica.go` of camlistore).

The Go code is shallowly embedded: each operation of `replicaStorage`
becomes a pure Lean function.  Concurrency is modelled by making the
arrival order of per-backend outcomes an explicit input list (the order
in which values are received from the Go channels `upResult`, `ch`,
`errch`); quantifying over that list quantifies over every possible
interleaving.  Blob references are strings (Go `*blobref.BlobRef`; the
Go zero value / nil pointer is modelled as the empty string), sizes are
`Int` (Go `int64`), errors are `Option String` (`none` is Go's nil
`error`).
-/

set_option autoImplicit false

namespace Replica

/-- An opaque per-request context handle (Go `*http.Request`). -/
abbrev Request := Nat

/-- Go `blobref.SizedBlobRef`: a blob reference paired with a byte size.
The nil `*blobref.BlobRef` of the Go zero value is modelled as `""`. -/
structure SizedBlobRef where
  blobRef : String
  size : Int
deriving DecidableEq

/-- The Go zero value of `blobref.SizedBlobRef` (returned by the naked
`return` statements of `ReceiveBlob`). -/
def zeroSizedBlobRef : SizedBlobRef := ⟨"", 0⟩

/-- One value received from the `upResult` channel of `ReceiveBlob`
(Go struct `sizedBlobAndError`): the outcome of one backend's
`ReceiveBlob` call. -/
structure UploadResult where
  sb : SizedBlobRef
  err : Option String
deriving DecidableEq

/-- The error message built by
`fmt.Errorf("replica: upload shard reported size %d, expected %d", res.sb.Size, size)`. -/
def mismatchMsg (got expected : Int) : String :=
  s!"replica: upload shard reported size {got}, expected {expected}"

/-- The observable outcome of a `ReceiveBlob` call: the returned
`SizedBlobRef` and `error`, whether `NotifyBlobReceived` was fired, and
how many values were received from the `upResult` channel (`consumed`
instruments the Go code's channel receives; it is not part of the Go
return value). -/
structure ReceiveResult where
  sb : SizedBlobRef
  err : Option String
  notified : Bool
  consumed : Nat
deriving DecidableEq

/-- Helper recording one more receive from the `upResult` channel. -/
def bumpConsumed (res : ReceiveResult) : ReceiveResult :=
  { res with consumed := res.consumed + 1 }

/-- The result-collection loop of `ReceiveBlob` (replica.go lines
213-235), translated case by case from the Go `switch`:

* `res.err == nil && res.sb.Size == size`: increment `nSuccess`; when it
  reaches `minWritesForSuccess` (`q`), notify the blob hub and return
  `(res.sb, nil)`;
* `res.err == nil` (size mismatch): record the size-mismatch error;
* otherwise: record the backend error.

When the list of arrivals is exhausted the Go function executes a naked
`return`, yielding the zero `SizedBlobRef` and whatever error was last
recorded (`nFailures` only feeds a log line and is not modelled). -/
def receiveLoop (q size : Int) : List UploadResult → Int → Option String → ReceiveResult
  | [], _, err => ⟨zeroSizedBlobRef, err, false, 0⟩
  | res :: rest, nSuccess, err =>
    if res.err = none ∧ res.sb.size = size then
      if nSuccess + 1 = q then ⟨res.sb, none, true, 1⟩
      else bumpConsumed (receiveLoop q size rest (nSuccess + 1) err)
    else if res.err = none then
      bumpConsumed (receiveLoop q size rest nSuccess (some (mismatchMsg res.sb.size size)))
    else
      bumpConsumed (receiveLoop q size rest nSuccess res.err)

/-- `replicaStorage.ReceiveBlob` (replica.go lines 183-236).
`copyResult` is the outcome of `io.Copy(io.MultiWriter(writer...), source)`:
either the byte count read from the source stream or the copy error; on
a copy error the Go code returns that error at once, before receiving
anything from `upResult` and before any notification.  `results` is the
sequence of backend outcomes in the order they are received from the
`upResult` channel. -/
def ReceiveBlob (q : Int) (copyResult : Except String Int)
    (results : List UploadResult) : ReceiveResult :=
  match copyResult with
  | .error e => ⟨zeroSizedBlobRef, some e, false, 0⟩
  | .ok size => receiveLoop q size results 0 none

/-- Number of backend outcomes that report success with exactly the
byte count read from the source: the outcomes the Go switch counts in
`nSuccess`. -/
def countGood (size : Int) (results : List UploadResult) : Nat :=
  (results.filter (fun r => r.err = none ∧ r.sb.size = size)).length

/-- One step of the error accumulator of the collection loop: a backend
error overwrites the record, a size mismatch records the mismatch
message, a good outcome leaves the record unchanged. -/
def recordErr (size : Int) (acc : Option String) (r : UploadResult) : Option String :=
  match r.err with
  | some e => some e
  | none => if r.sb.size = size then acc else some (mismatchMsg r.sb.size size)

/-- The error held in `err` after the collection loop has consumed all
of `results` starting from record `init`. -/
def lastRecordedError (size : Int) (results : List UploadResult)
    (init : Option String) : Option String :=
  results.foldl (recordErr size) init

theorem countGood_cons (size : Int) (r : UploadResult) (l : List UploadResult) :
    countGood size (r :: l) =
      (if r.err = none ∧ r.sb.size = size then 1 else 0) + countGood size l := by
  by_cases h : r.err = none ∧ r.sb.size = size
  · simp [countGood, List.filter_cons, h]
    omega
  · simp [countGood, List.filter_cons, h]

theorem lastRecordedError_cons (size : Int) (r : UploadResult)
    (l : List UploadResult) (init : Option String) :
    lastRecordedError size (r :: l) init =
      lastRecordedError size l (recordErr size init r) := rfl

/-- If the running success count can still reach the quorum, the loop
returns success: nil error, notification fired, and the returned
`SizedBlobRef` is one reported by a backend that succeeded with the
exact source byte count. -/
theorem receiveLoop_reaches_quorum (q size : Int) :
    ∀ (l : List UploadResult) (n : Int) (err : Option String),
      n < q → q ≤ n + (countGood size l : Int) →
      (receiveLoop q size l n err).err = none ∧
      (receiveLoop q size l n err).notified = true ∧
      ∃ r ∈ l, r.err = none ∧ r.sb.size = size ∧
        (receiveLoop q size l n err).sb = r.sb := by
  intro l
  induction l with
  | nil =>
    intro n err h1 h2
    simp [countGood] at h2
    omega
  | cons r rest ih =>
    intro n err h1 h2
    rw [countGood_cons] at h2
    by_cases hg : r.err = none ∧ r.sb.size = size
    · by_cases hq : n + 1 = q
      · refine ⟨?_, ?_, r, by simp, hg.1, hg.2, ?_⟩ <;>
          simp [receiveLoop, hg, hq]
      · have hrec := ih (n + 1) err (by omega) (by simp [hg] at h2; omega)
        obtain ⟨he, hn, r', hr', hgood', hsz', hsb'⟩ := hrec
        refine ⟨?_, ?_, r', by simp [hr'], hgood', hsz', ?_⟩ <;>
          simp [receiveLoop, hg, hq, bumpConsumed, he, hn, hsb']
    · simp [hg] at h2
      by_cases hb : r.err = none
      · have hsz : ¬ (r.sb.size = size) := fun h => hg ⟨hb, h⟩
        have hrec := ih n (some (mismatchMsg r.sb.size size)) h1 (by omega)
        obtain ⟨he, hn, r', hr', hgood', hsz', hsb'⟩ := hrec
        refine ⟨?_, ?_, r', by simp [hr'], hgood', hsz', ?_⟩ <;>
          simp [receiveLoop, hg, hb, hsz, bumpConsumed, he, hn, hsb']
      · have hrec := ih n r.err h1 (by omega)
        obtain ⟨he, hn, r', hr', hgood', hsz', hsb'⟩ := hrec
        refine ⟨?_, ?_, r', by simp [hr'], hgood', hsz', ?_⟩ <;>
          simp [receiveLoop, hg, hb, bumpConsumed, he, hn, hsb']

/-- If the successes in `l` cannot bring the count up to the quorum, the
loop consumes every outcome and ends with the Go naked `return`:
zero `SizedBlobRef`, the last recorded error, no notification. -/
theorem receiveLoop_exhausts (q size : Int) :
    ∀ (l : List UploadResult) (n : Int) (err : Option String),
      n < q → n + (countGood size l : Int) < q →
      receiveLoop q size l n err =
        ⟨zeroSizedBlobRef, lastRecordedError size l err, false, l.length⟩ := by
  intro l
  induction l with
  | nil =>
    intro n err _ _
    simp [receiveLoop, lastRecordedError]
  | cons r rest ih =>
    intro n err h1 h2
    rw [countGood_cons] at h2
    by_cases hg : r.err = none ∧ r.sb.size = size
    · simp [hg] at h2
      have hq : ¬ (n + 1 = q) := by omega
      have hrec := ih (n + 1) err (by omega) (by omega)
      simp [receiveLoop, hg, hq, bumpConsumed, hrec,
        lastRecordedError_cons, recordErr, hg.1, hg.2]
    · simp [hg] at h2
      by_cases hb : r.err = none
      · have hsz : ¬ (r.sb.size = size) := fun h => hg ⟨hb, h⟩
        have hrec := ih n (some (mismatchMsg r.sb.size size)) h1 (by omega)
        simp [receiveLoop, hg, hb, bumpConsumed, hrec,
          lastRecordedError_cons, recordErr, hsz]
      · obtain ⟨e, he⟩ := Option.ne_none_iff_exists'.mp hb
        have hrec := ih n r.err h1 (by omega)
        rw [he] at hrec
        simp [receiveLoop, hg, hb, bumpConsumed, hrec,
          lastRecordedError_cons, recordErr, he]

/-- Once an error has been recorded it is never reset to nil. -/
theorem lastRecordedError_ne_none_of_init (size : Int) :
    ∀ (l : List UploadResult) (init : Option String),
      init ≠ none → lastRecordedError size l init ≠ none := by
  intro l
  induction l with
  | nil => intro init h; simpa [lastRecordedError] using h
  | cons r rest ih =>
    intro init h
    rw [lastRecordedError_cons]
    apply ih
    unfold recordErr
    match hr : r.err with
    | some e => simp
    | none => by_cases hs : r.sb.size = size <;> simp [hs, h]

/-- Any bad outcome (backend error or size mismatch) forces a non-nil
recorded error at the end of the loop. -/
theorem lastRecordedError_ne_none_of_bad (size : Int) :
    ∀ (l : List UploadResult) (init : Option String),
      (∃ r ∈ l, ¬(r.err = none ∧ r.sb.size = size)) →
      lastRecordedError size l init ≠ none := by
  intro l
  induction l with
  | nil => intro init h; simp at h
  | cons r rest ih =>
    intro init ⟨r', hr', hbad⟩
    rcases List.mem_cons.mp hr' with heq | hmem
    · subst heq
      rw [lastRecordedError_cons]
      by_cases hb : r'.err = none
      · have hsz : ¬ (r'.sb.size = size) := fun h => hbad ⟨hb, h⟩
        apply lastRecordedError_ne_none_of_init
        simp [recordErr, hb, hsz]
      · obtain ⟨e, he⟩ := Option.ne_none_iff_exists'.mp hb
        apply lastRecordedError_ne_none_of_init
        simp [recordErr, he]
    · rw [lastRecordedError_cons]
      exact ih _ ⟨r', hmem, hbad⟩

/-- Fewer good outcomes than outcomes means some outcome was bad. -/
theorem exists_bad_of_countGood_lt (size : Int) (l : List UploadResult)
    (h : countGood size l < l.length) :
    ∃ r ∈ l, ¬(r.err = none ∧ r.sb.size = size) := by
  by_contra hno
  push_neg at hno
  have hself : l.filter (fun r => r.err = none ∧ r.sb.size = size) = l := by
    apply List.filter_eq_self.mpr
    intro a ha
    exact decide_eq_true (hno a ha)
  unfold countGood at h
  rw [hself] at h
  omega

/-- C1: for every quorum `1 ≤ q ≤ N`, `ReceiveBlob` succeeds (returning
the blob reference paired with the byte count read from the source
stream) if and only if at least `q` backends accept the blob reporting a
size equal to the source byte count; a backend reporting a different
size never counts toward the quorum, and with fewer than `q` such
successes the call fails.  `hb` is the backend interface contract that a
successful receive reports the reference it was given. -/
theorem ReceiveBlob_quorum_iff (q size : Int) (results : List UploadResult) (b : String)
    (h1 : 1 ≤ q) (h2 : q ≤ (results.length : Int))
    (hb : ∀ r ∈ results, r.err = none → r.sb.blobRef = b) :
    ((ReceiveBlob q (.ok size) results).err = none ↔
      q ≤ (countGood size results : Int)) ∧
    ((ReceiveBlob q (.ok size) results).err = none →
      (ReceiveBlob q (.ok size) results).sb = ⟨b, size⟩) := by
  have hiff : (ReceiveBlob q (.ok size) results).err = none ↔
      q ≤ (countGood size results : Int) := by
    constructor
    · intro hsucc
      by_contra hlt
      push_neg at hlt
      have hex := receiveLoop_exhausts q size results 0 none (by omega) (by omega)
      have hgl : countGood size results < results.length := by
        have := countGood size results
        omega
      have hbad := exists_bad_of_countGood_lt size results hgl
      have hne := lastRecordedError_ne_none_of_bad size results none hbad
      rw [ReceiveBlob] at hsucc
      rw [hex] at hsucc
      exact hne hsucc
    · intro hge
      have := (receiveLoop_reaches_quorum q size results 0 none (by omega) (by omega)).1
      simpa [ReceiveBlob] using this
  refine ⟨hiff, fun hsucc => ?_⟩
  have hge := hiff.mp hsucc
  obtain ⟨_, _, r, hr, hgood, hsz, hsb⟩ :=
    receiveLoop_reaches_quorum q size results 0 none (by omega) (by omega)
  have : (ReceiveBlob q (.ok size) results).sb = r.sb := by
    simpa [ReceiveBlob] using hsb
  rw [this]
  have hbr := hb r hr hgood
  cases hsb2 : r.sb with
  | mk ref sz =>
    rw [hsb2] at hbr hsz
    simp only [SizedBlobRef.mk.injEq]
    exact ⟨hbr, hsz⟩

/-- Witness for C1 at a concrete input: quorum 1 of 1, a 3-byte source,
the single backend succeeding with size 3. -/
theorem ReceiveBlob_quorum_iff_witness :
    ((ReceiveBlob 1 (.ok 3) [⟨⟨"sha1-x", 3⟩, none⟩]).err = none ↔
      (1 : Int) ≤ (countGood 3 [⟨⟨"sha1-x", 3⟩, none⟩] : Int)) ∧
    ((ReceiveBlob 1 (.ok 3) [⟨⟨"sha1-x", 3⟩, none⟩]).err = none →
      (ReceiveBlob 1 (.ok 3) [⟨⟨"sha1-x", 3⟩, none⟩]).sb = ⟨"sha1-x", 3⟩) :=
  ReceiveBlob_quorum_iff 1 3 [⟨⟨"sha1-x", 3⟩, none⟩] "sha1-x" (by decide) (by decide)
    (by intro r hr _; simp at hr; simp [hr])

/-- C4 counterexample: with 1 backend and quorum 2 (a store
`newFromConfig` accepts, see below), the lone backend reports success
with the exact size, all backends have reported, the quorum was never
reached, no notification fired -- and `ReceiveBlob` returns a nil error
with the zero `SizedBlobRef`, not an error: there is no generic
"insufficient successful writes" error in the code. -/
theorem ReceiveBlob_nil_error_without_quorum :
    ReceiveBlob 2 (.ok 100) [⟨⟨"sha1-x", 100⟩, none⟩] =
      ⟨zeroSizedBlobRef, none, false, 1⟩ ∧
    (countGood 100 [⟨⟨"sha1-x", 100⟩, none⟩] : Int) < 2 := by
  constructor
  · decide
  · decide

/-- C4 as amended: when all backends report before the quorum is
reached *and* the quorum does not exceed the number of backends,
`ReceiveBlob` returns the last error recorded during outcome collection
(at least one backend error or size mismatch is guaranteed to have been
recorded), never a nil error, fires no notification, and has consumed
every backend outcome.  (When the quorum exceeds the backend count the
loop can end with no recorded error and returns nil, and no generic
"insufficient successful writes" error exists in the code.) -/
theorem ReceiveBlob_insufficient (q size : Int) (results : List UploadResult)
    (h1 : 1 ≤ q) (h2 : q ≤ (results.length : Int))
    (h3 : (countGood size results : Int) < q) :
    (ReceiveBlob q (.ok size) results).err = lastRecordedError size results none ∧
    (ReceiveBlob q (.ok size) results).err ≠ none ∧
    (ReceiveBlob q (.ok size) results).notified = false ∧
    (ReceiveBlob q (.ok size) results).consumed = results.length := by
  have hex := receiveLoop_exhausts q size results 0 none (by omega) (by omega)
  have hgl : countGood size results < results.length := by omega
  have hbad := exists_bad_of_countGood_lt size results hgl
  have hne := lastRecordedError_ne_none_of_bad size results none hbad
  rw [ReceiveBlob, hex]
  exact ⟨rfl, hne, rfl, rfl⟩

/-- Witness for C4 (amended) at a concrete input: quorum 1 of 1, the
single backend failing with error "boom". -/
theorem ReceiveBlob_insufficient_witness :
    (ReceiveBlob 1 (.ok 5) [⟨⟨"", 0⟩, some "boom"⟩]).err =
        lastRecordedError 5 [⟨⟨"", 0⟩, some "boom"⟩] none ∧
    (ReceiveBlob 1 (.ok 5) [⟨⟨"", 0⟩, some "boom"⟩]).err ≠ none ∧
    (ReceiveBlob 1 (.ok 5) [⟨⟨"", 0⟩, some "boom"⟩]).notified = false ∧
    (ReceiveBlob 1 (.ok 5) [⟨⟨"", 0⟩, some "boom"⟩]).consumed =
        [(⟨⟨"", 0⟩, some "boom"⟩ : UploadResult)].length :=
  ReceiveBlob_insufficient 1 5 [⟨⟨"", 0⟩, some "boom"⟩] (by decide) (by decide) (by decide)

/-- C8: if the broadcast copy of the client's source stream fails, that
error is returned immediately: for every backend-outcome list, no
outcome is consumed, no notification is fired, and the returned error is
exactly the copy error. -/
theorem ReceiveBlob_copy_error (q : Int) (e : String) (results : List UploadResult) :
    ReceiveBlob q (.error e) results = ⟨zeroSizedBlobRef, some e, false, 0⟩ := rfl

/-! ## RemoveBlobs (replica.go lines 238-263)

Each of the N backend goroutines sends exactly one value on the
buffered channel `errch`, and nothing ever closes `errch`.  The
collection loop is

    for _ = range errch {
        if err := <-errch; err != nil { reterr = err } else { nSuccess++ }
    }

so every iteration performs one receive in the `range` clause (value
discarded) and a second receive in the body.  A `range` over a channel
terminates only once the channel is closed and drained; since `errch`
is never closed, the loop blocks forever as soon as the backend results
run out -- at the `range` receive when none remain, or at the body's
receive when exactly one remains.  The code after the loop (return nil
on any success, else `reterr`) is unreachable. -/

/-- Outcome of the Go `RemoveBlobs` call: either it blocks forever on
the unclosed channel, or it returns an `error` value. -/
inductive RemoveOutcome where
  | blocked : RemoveOutcome
  | returned : Option String → RemoveOutcome
deriving DecidableEq

/-- The collection loop of `RemoveBlobs` over the backend results in
arrival order: the head of the list is taken by the `range` receive and
discarded, the second element by `<-errch` and inspected; with fewer
than two values left the loop blocks on a channel that is never
closed. -/
def removeLoop : List (Option String) → Option String → Nat → RemoveOutcome
  | [], _, _ => .blocked
  | [_], _, _ => .blocked
  | _ :: e :: rest, reterr, nSuccess =>
    match e with
    | some m => removeLoop rest (some m) nSuccess
    | none => removeLoop rest reterr (nSuccess + 1)

/-- `replicaStorage.RemoveBlobs`: `results` is the sequence of
per-backend `RemoveBlobs` errors in the order they arrive on `errch`
(one per backend, nil meaning that backend succeeded). -/
def RemoveBlobs (results : List (Option String)) : RemoveOutcome :=
  removeLoop results none 0

theorem removeLoop_blocked :
    ∀ (results : List (Option String)) (reterr : Option String) (nSuccess : Nat),
      removeLoop results reterr nSuccess = .blocked
  | [], _, _ => rfl
  | [_], _, _ => rfl
  | _ :: e :: rest, reterr, nSuccess => by
    cases e with
    | some m => exact removeLoop_blocked rest (some m) nSuccess
    | none => exact removeLoop_blocked rest reterr (nSuccess + 1)

/-- C2 is a code bug: for every number of backends and every
combination of backend outcomes -- in particular when at least one
backend reports success -- `RemoveBlobs` never returns; ranging over
the never-closed `errch` while also receiving inside the loop body
makes its own "return nil if any succeeded" statement unreachable. -/
theorem RemoveBlobs_never_returns (results : List (Option String)) :
    RemoveBlobs results = .blocked :=
  removeLoop_blocked results none 0

/-! ## StatBlobs (replica.go lines 127-176)

`need` is the Go map keyed by `br.String()`, modelled as the
duplicate-free list of requested references.  `arrivals` is the
sequence of `SizedBlobRef`s received from the funnel channel `ch` (all
backends' reports, in arrival order); `errs` is the sequence of
per-backend stat errors received from `errch` (one per backend). -/

/-- The funnel goroutine (replica.go lines 141-150): forward a received
ref iff it is still needed, then delete it from `need`.  Returns the
forwarded list (in order sent to `dest`) and the final `need` set. -/
def statFunnel : List SizedBlobRef → List String → List SizedBlobRef × List String
  | [], need => ([], need)
  | sb :: rest, need =>
    if sb.blobRef ∈ need then
      let p := statFunnel rest (need.erase sb.blobRef)
      (sb :: p.1, p.2)
    else
      statFunnel rest need

/-- `retErr` after the error-collection loop (replica.go lines
161-166): the last non-nil backend error, nil if every backend
succeeded. -/
def lastBackendErr (errs : List (Option String)) : Option String :=
  errs.foldl (fun acc e => match e with | some m => some m | none => acc) none

/-- `replicaStorage.StatBlobs`: returns the refs forwarded to `dest`
and the returned `error` (nil when `need` drained, else `retErr`). -/
def StatBlobs (blobs : List String) (arrivals : List SizedBlobRef)
    (errs : List (Option String)) : List SizedBlobRef × Option String :=
  let p := statFunnel arrivals blobs.dedup
  (p.1, if p.2 = [] then none else lastBackendErr errs)

theorem statFunnel_forward_mem :
    ∀ (arrivals : List SizedBlobRef) (need : List String),
      ∀ sb ∈ (statFunnel arrivals need).1, sb.blobRef ∈ need := by
  intro arrivals
  induction arrivals with
  | nil => intro need sb h; simp [statFunnel] at h
  | cons a rest ih =>
    intro need sb h
    by_cases hm : a.blobRef ∈ need
    · simp only [statFunnel, if_pos hm] at h
      rcases List.mem_cons.mp h with heq | hmem
      · subst heq; exact hm
      · exact List.mem_of_mem_erase (ih (need.erase a.blobRef) sb hmem)
    · simp only [statFunnel, if_neg hm] at h
      exact ih need sb h

/-- Characterisation of what the funnel forwards for a given reference
`x`: nothing if `x` was not requested, else exactly the first arrival
carrying `x` (if any). -/
theorem statFunnel_filter (x : String) :
    ∀ (arrivals : List SizedBlobRef) (need : List String), need.Nodup →
      (statFunnel arrivals need).1.filter (fun sb => sb.blobRef = x) =
        if x ∈ need then (arrivals.find? (fun sb => sb.blobRef = x)).toList
        else [] := by
  intro arrivals
  induction arrivals with
  | nil =>
    intro need _
    by_cases hx : x ∈ need <;> simp [statFunnel, hx]
  | cons a rest ih =>
    intro need hnd
    by_cases hm : a.blobRef ∈ need
    · simp only [statFunnel, if_pos hm]
      by_cases hax : a.blobRef = x
      · subst hax
        have hnot : a.blobRef ∉ need.erase a.blobRef := hnd.not_mem_erase
        have := ih (need.erase a.blobRef) (hnd.erase a.blobRef)
        rw [if_neg hnot] at this
        simp [List.filter_cons, List.find?_cons, this, hm]
      · have hxe : x ∈ need.erase a.blobRef ↔ x ∈ need := by
          constructor
          · exact List.mem_of_mem_erase
          · intro h; exact List.mem_erase_of_ne (fun h2 => hax h2.symm) |>.mpr h
        have := ih (need.erase a.blobRef) (hnd.erase a.blobRef)
        by_cases hx : x ∈ need
        · rw [if_pos (hxe.mpr hx)] at this
          rw [if_pos hx]
          simp [List.filter_cons, List.find?_cons, hax, this]
        · rw [if_neg (fun h => hx (hxe.mp h))] at this
          rw [if_neg hx]
          simp [List.filter_cons, hax, this]
    · simp only [statFunnel, if_neg hm]
      by_cases hax : a.blobRef = x
      · subst hax
        have := ih need hnd
        rw [if_neg hm] at this
        rw [if_neg hm]
        exact this
      · have := ih need hnd
        by_cases hx : x ∈ need
        · rw [if_pos hx] at this
          rw [if_pos hx]
          simp [List.find?_cons, hax, this]
        · rw [if_neg hx] at this
          rw [if_neg hx]
          exact this

/-- What remains in `need` after the funnel: the requested refs no
backend reported. -/
theorem statFunnel_need (x : String) :
    ∀ (arrivals : List SizedBlobRef) (need : List String), need.Nodup →
      (x ∈ (statFunnel arrivals need).2 ↔
        x ∈ need ∧ arrivals.find? (fun sb => sb.blobRef = x) = none) := by
  intro arrivals
  induction arrivals with
  | nil => intro need _; simp [statFunnel]
  | cons a rest ih =>
    intro need hnd
    by_cases hm : a.blobRef ∈ need
    · simp only [statFunnel, if_pos hm]
      rw [ih (need.erase a.blobRef) (hnd.erase a.blobRef)]
      by_cases hax : a.blobRef = x
      · subst hax
        have hnot : a.blobRef ∉ need.erase a.blobRef := hnd.not_mem_erase
        simp [List.find?_cons, hnot]
      · have hxe : x ∈ need.erase a.blobRef ↔ x ∈ need :=
          ⟨List.mem_of_mem_erase,
           fun h => (List.mem_erase_of_ne (fun h2 => hax h2.symm)).mpr h⟩
        simp [List.find?_cons, hax, hxe]
    · simp only [statFunnel, if_neg hm]
      rw [ih need hnd]
      by_cases hax : a.blobRef = x
      · subst hax
        simp [List.find?_cons, hm]
      · simp [List.find?_cons, hax]

theorem find?_eq_head?_filter {α : Type} (p : α → Bool) (l : List α) :
    l.find? p = (l.filter p).head? := by
  induction l with
  | nil => rfl
  | cons a rest ih =>
    by_cases h : p a = true
    · rw [List.find?_cons_of_pos _ h, List.filter_cons_of_pos h]
      rfl
    · rw [List.find?_cons_of_neg _ h, List.filter_cons_of_neg h, ih]

/-- C5: `StatBlobs` forwards to the destination only references in the
originally requested set, forwards each reference at most once, and for
every requested reference the forwarded entry (if any) is the first
report of that reference to arrive, regardless of which backend sent
it; unrequested reports are dropped. -/
theorem StatBlobs_forward (blobs : List String) (arrivals : List SizedBlobRef)
    (errs : List (Option String)) :
    (∀ sb ∈ (StatBlobs blobs arrivals errs).1, sb.blobRef ∈ blobs) ∧
    (∀ x : String,
      ((StatBlobs blobs arrivals errs).1.filter (fun sb => sb.blobRef = x)).length ≤ 1) ∧
    (∀ x ∈ blobs, (StatBlobs blobs arrivals errs).1.find? (fun sb => sb.blobRef = x) =
      arrivals.find? (fun sb => sb.blobRef = x)) := by
  refine ⟨?_, ?_, ?_⟩
  · intro sb hsb
    have := statFunnel_forward_mem arrivals blobs.dedup sb hsb
    exact List.mem_dedup.mp this
  · intro x
    have hf := statFunnel_filter x arrivals blobs.dedup (List.nodup_dedup blobs)
    show ((statFunnel arrivals blobs.dedup).1.filter (fun sb => sb.blobRef = x)).length ≤ 1
    rw [hf]
    by_cases hx : x ∈ blobs.dedup
    · rw [if_pos hx]
      cases arrivals.find? (fun sb => decide (sb.blobRef = x)) <;> simp
    · rw [if_neg hx]
      simp
  · intro x hx
    have hf := statFunnel_filter x arrivals blobs.dedup (List.nodup_dedup blobs)
    rw [if_pos (List.mem_dedup.mpr hx)] at hf
    show (statFunnel arrivals blobs.dedup).1.find? (fun sb => decide (sb.blobRef = x)) =
      arrivals.find? (fun sb => decide (sb.blobRef = x))
    rw [find?_eq_head?_filter, hf]
    cases arrivals.find? (fun sb => decide (sb.blobRef = x)) <;> simp

/-- Witness for C5 at a concrete input: refs "r" and "s" requested,
backends report "r" twice (sizes 1 then 2) and an unrequested "t"; the
forwarded entry for "r" is the first report, of size 1. -/
theorem StatBlobs_forward_witness :
    (StatBlobs ["r", "s"] [⟨"r", 1⟩, ⟨"t", 9⟩, ⟨"r", 2⟩] []).1.find?
        (fun sb => sb.blobRef = "r") = some ⟨"r", 1⟩ :=
  ((StatBlobs_forward ["r", "s"] [⟨"r", 1⟩, ⟨"t", 9⟩, ⟨"r", 2⟩] []).2.2 "r"
    (by decide)).trans (by decide)

/-- C6 counterexample: one backend, one requested ref "r"; the backend
reports nothing and returns a nil stat error.  The requested reference
was reported by no backend (nothing was forwarded), yet `StatBlobs`
returns nil, because `retErr` was never set -- refuting "returns nil
exactly when every requested reference was reported by at least one
backend". -/
theorem StatBlobs_nil_without_coverage :
    (StatBlobs ["r"] [] [none]).2 = none ∧ (StatBlobs ["r"] [] [none]).1 = [] := by
  constructor
  · decide
  · decide

/-- C6 as amended: `StatBlobs` returns nil whenever every requested
reference was reported by at least one backend, even if some backends
errored; otherwise it returns `retErr`, the last recorded backend
error -- which is itself nil when no backend returned an error, so a
nil return does not imply full coverage. -/
theorem StatBlobs_error_policy (blobs : List String) (arrivals : List SizedBlobRef)
    (errs : List (Option String)) :
    ((∀ x ∈ blobs, ∃ sb ∈ arrivals, sb.blobRef = x) →
      (StatBlobs blobs arrivals errs).2 = none) ∧
    ((¬ ∀ x ∈ blobs, ∃ sb ∈ arrivals, sb.blobRef = x) →
      (StatBlobs blobs arrivals errs).2 = lastBackendErr errs) := by
  have hchar : ∀ x : String, x ∈ (statFunnel arrivals blobs.dedup).2 ↔
      x ∈ blobs.dedup ∧ arrivals.find? (fun sb => sb.blobRef = x) = none :=
    fun x => statFunnel_need x arrivals blobs.dedup (List.nodup_dedup blobs)
  constructor
  · intro hcov
    have hempty : (statFunnel arrivals blobs.dedup).2 = [] := by
      apply List.eq_nil_iff_forall_not_mem.mpr
      intro x hx
      obtain ⟨hxb, hfind⟩ := (hchar x).mp hx
      obtain ⟨sb, hsb, href⟩ := hcov x (List.mem_dedup.mp hxb)
      have : arrivals.find? (fun sb => decide (sb.blobRef = x)) ≠ none := by
        rw [ne_eq, List.find?_eq_none]
        push_neg
        exact ⟨sb, hsb, by simp [href]⟩
      exact this hfind
    simp [StatBlobs, hempty]
  · intro hmiss
    push_neg at hmiss
    obtain ⟨x, hxb, hnone⟩ := hmiss
    have hfind : arrivals.find? (fun sb => decide (sb.blobRef = x)) = none := by
      rw [List.find?_eq_none]
      intro sb hsb
      simp only [decide_eq_true_eq]
      exact fun h => hnone sb hsb h
    have hxmem : x ∈ (statFunnel arrivals blobs.dedup).2 :=
      (hchar x).mpr ⟨List.mem_dedup.mpr hxb, hfind⟩
    have hne : (statFunnel arrivals blobs.dedup).2 ≠ [] := by
      intro h
      rw [h] at hxmem
      exact List.not_mem_nil x hxmem
    simp [StatBlobs, hne]

/-- Witness for C6 (amended) at a concrete input: requested ref "r" is
never reported and one backend errors with "boom", which is returned. -/
theorem StatBlobs_error_policy_witness :
    (StatBlobs ["r"] [] [some "boom"]).2 = lastBackendErr [some "boom"] :=
  (StatBlobs_error_policy ["r"] [] [some "boom"]).2 (by decide)

/-! ## The store, context wrapping, construction and streaming fetch -/

/-- The Go triple `(file io.ReadCloser, size int64, err error)` returned
by `FetchStreaming`; the stream handle is an opaque number, Go's nil
reader is `none`. -/
structure FetchOut where
  file : Option Nat
  size : Int
  err : Option String
deriving DecidableEq

/-- A backend (`blobserver.Storage`).  Only the streaming-fetch
capability is needed at this level (the other operations enter the
model through their outcome lists above); `fetch` takes the per-request
context under which the backend is invoked, so that sensitivity to
context wrapping is expressible.  A raw (unwrapped) call passes
`none`. -/
structure Backend where
  name : String
  fetch : Option Request → String → FetchOut

/-- Modelled from the spec: `blobserver.MaybeWrapContext` (package
`blobserver`, not under src/) derives the request-scoped variant of a
backend -- "a shallow, immutable-after-construction copy carrying only
a different context value".  With a nil request the backend is returned
unwrapped; otherwise its operations run under the given request. -/
def MaybeWrapContext (r : Backend) (ctx : Option Request) : Backend :=
  match ctx with
  | none => r
  | some c => { r with fetch := fun _ b => r.fetch (some c) b }

/-- Go struct `replicaStorage`.  `hub` stands for the
`*blobserver.SimpleBlobHubPartitionMap` pointer (an opaque identity,
shared by shallow copies). -/
structure ReplicaStorage where
  hub : Nat
  replicaPrefixes : List String
  replicas : List Backend
  minWritesForSuccess : Int
  ctx : Option Request

/-- `replicaStorage.WrapContext` (replica.go lines 72-77): shallow-copy
the store (`*s2 = *sto`) and set the context field; the Go original is
not mutated, which the pure model reflects by construction. -/
def ReplicaStorage.WrapContext (sto : ReplicaStorage) (req : Request) : ReplicaStorage :=
  { sto with ctx := some req }

/-- `replicaStorage.wrappedReplicas` (replica.go lines 79-88). -/
def ReplicaStorage.wrappedReplicas (sto : ReplicaStorage) : List Backend :=
  match sto.ctx with
  | none => sto.replicas
  | some _ => sto.replicas.map (fun r => MaybeWrapContext r sto.ctx)

/-- The loop of `FetchStreaming` (replica.go lines 117-125) over the
per-backend outcomes, threading the named return values: return the
first outcome with a nil error, else fall off the loop and return the
last outcome tried (`last` holds the current named return values,
initially the Go zero values).  The second component counts how many
backends were consulted. -/
def fetchLoop : FetchOut → List FetchOut → FetchOut × Nat
  | last, [] => (last, 0)
  | _, f :: rest =>
    if f.err = none then (f, 1)
    else
      let p := fetchLoop f rest
      (p.1, p.2 + 1)

/-- `replicaStorage.FetchStreaming`: iterates `sto.replicas` -- the raw
backend list, not `wrappedReplicas()` -- calling each backend's fetch
with no request context. -/
def ReplicaStorage.FetchStreaming (sto : ReplicaStorage) (b : String) : FetchOut × Nat :=
  fetchLoop ⟨none, 0, none⟩ (sto.replicas.map (fun r => r.fetch none b))

/-- Construction-time configuration (`jsonconfig.Obj`).  Modelled from
the spec: package `jsonconfig` is not under src/; `RequiredList`,
`OptionalInt` and `Validate` are modelled as a backend list, an
optional integer (absent meaning unset), and a validation error
covering missing/ill-typed keys and unrecognised keys. -/
structure Config where
  backends : List String
  minWritesForSuccess : Option Int
  validateErr : Option String

/-- `ld.GetStorage` applied to each prefix in order, failing on the
first unresolvable one (the loop of replica.go lines 107-113).  The
loader itself is modelled from the spec as a resolution function. -/
def resolveAll (ld : String → Except String Backend) :
    List String → Except String (List Backend)
  | [] => .ok []
  | p :: rest =>
    match ld p with
    | .error e => .error e
    | .ok r =>
      match resolveAll ld rest with
      | .error e => .error e
      | .ok rs => .ok (r :: rs)

/-- `newFromConfig` (replica.go lines 90-115): read the backend list,
default `minWritesForSuccess` to the number of replicas when the key is
unset, surface config validation errors, reject zero backends, map an
explicit zero to "all replicas", resolve every prefix.  Note the code
never compares `minWritesForSuccess` against the number of backends. -/
def newFromConfig (ld : String → Except String Backend) (config : Config) :
    Except String ReplicaStorage :=
  match config.validateErr with
  | some e => .error e
  | none =>
    if config.backends.length = 0 then .error "replica: need at least one replica"
    else
      match resolveAll ld config.backends with
      | .error e => .error e
      | .ok replicas =>
        .ok ⟨0, config.backends, replicas,
          if config.minWritesForSuccess.getD (config.backends.length : Int) = 0
          then (config.backends.length : Int)
          else config.minWritesForSuccess.getD (config.backends.length : Int),
          none⟩

theorem resolveAll_length (ld : String → Except String Backend) :
    ∀ (ps : List String) (rs : List Backend),
      resolveAll ld ps = .ok rs → rs.length = ps.length := by
  intro ps
  induction ps with
  | nil =>
    intro rs h
    simp only [resolveAll] at h
    cases h
    rfl
  | cons p rest ih =>
    intro rs h
    simp only [resolveAll] at h
    match hld : ld p with
    | .error e => rw [hld] at h; cases h
    | .ok r =>
      rw [hld] at h
      match hrec : resolveAll ld rest with
      | .error e => rw [hrec] at h; cases h
      | .ok rs' =>
        rw [hrec] at h
        cases h
        simp [ih rs' hrec]

/-- A concrete backend used by the construction scenarios. -/
def probeBackend : Backend :=
  ⟨"backend", fun _ _ => ⟨none, 0, some "not found"⟩⟩

/-- A loader resolving every prefix to `probeBackend`. -/
def ldResolveAll : String → Except String Backend := fun _ => .ok probeBackend

/-- Config with one backend and `minWritesForSuccess: 2`. -/
def cfgQuorumTwoOfOne : Config := ⟨["/b1/"], some 2, none⟩

/-- C3 counterexample: `newFromConfig` accepts one backend with a
configured `minWritesForSuccess` of 2: construction succeeds and the
resulting store violates `minWritesForSuccess ≤ number of backends`.
The code never compares the configured value against the backend
count, so construction does not fail for configurations violating the
bound. -/
theorem newFromConfig_accepts_quorum_above_backends :
    newFromConfig ldResolveAll cfgQuorumTwoOfOne =
      .ok ⟨0, ["/b1/"], [probeBackend], 2, none⟩ ∧
    ¬ ((⟨0, ["/b1/"], [probeBackend], 2, none⟩ : ReplicaStorage).minWritesForSuccess ≤
        ((⟨0, ["/b1/"], [probeBackend], 2, none⟩ : ReplicaStorage).replicas.length : Int)) := by
  constructor
  · rfl
  · decide

/-- C3 as amended: construction never yields zero backends, resolves
one backend per configured prefix, defaults an unset or zero
`minWritesForSuccess` to the number of backends, and stores any other
configured value unchanged; hence `1 ≤ minWritesForSuccess ≤ N` holds
whenever the configured value is unset, zero, or itself between 1 and
`N` -- but a value outside that range is accepted as-is and
construction does not fail for it. -/
theorem newFromConfig_spec (ld : String → Except String Backend) (config : Config)
    (sto : ReplicaStorage) (h : newFromConfig ld config = .ok sto) :
    0 < sto.replicas.length ∧
    sto.replicas.length = config.backends.length ∧
    ((config.minWritesForSuccess = none ∨ config.minWritesForSuccess = some 0) →
      sto.minWritesForSuccess = (sto.replicas.length : Int)) ∧
    (∀ v : Int, config.minWritesForSuccess = some v → v ≠ 0 →
      sto.minWritesForSuccess = v) ∧
    (∀ v : Int, config.minWritesForSuccess = some v → 1 ≤ v →
      v ≤ (config.backends.length : Int) →
      1 ≤ sto.minWritesForSuccess ∧
      sto.minWritesForSuccess ≤ (sto.replicas.length : Int)) := by
  unfold newFromConfig at h
  match hval : config.validateErr with
  | some e => rw [hval] at h; cases h
  | none =>
    rw [hval] at h
    by_cases hz : config.backends.length = 0
    · rw [if_pos hz] at h; cases h
    · rw [if_neg hz] at h
      match hres : resolveAll ld config.backends with
      | .error e => rw [hres] at h; cases h
      | .ok rs =>
        rw [hres] at h
        cases h
        have hlen := resolveAll_length ld config.backends rs hres
        refine ⟨by simp [hlen]; omega, by simp [hlen], ?_, ?_, ?_⟩
        · rintro (hc | hc) <;> simp [hc, hlen]
        · intro v hc hv
          simp [hc, hv]
        · intro v hc hv1 hv2
          simp only [hc, Option.getD_some]
          have hv : ¬ (v = 0) := by omega
          simp only [if_neg hv]
          constructor
          · exact hv1
          · simp [hlen]; omega

/-- Config with three backends and an explicit `minWritesForSuccess: 0`. -/
def cfgThreeZero : Config := ⟨["/a/", "/b/", "/c/"], some 0, none⟩

/-- The store `newFromConfig` builds from `cfgThreeZero`. -/
def stoThree : ReplicaStorage :=
  ⟨0, ["/a/", "/b/", "/c/"], [probeBackend, probeBackend, probeBackend], 3, none⟩

/-- Witness for C3 (amended) at a concrete input: 3 backends and
`minWritesForSuccess: 0` construct successfully and default the quorum
to 3 (all backends). -/
theorem newFromConfig_spec_witness :
    0 < stoThree.replicas.length ∧
    stoThree.replicas.length = cfgThreeZero.backends.length ∧
    ((cfgThreeZero.minWritesForSuccess = none ∨ cfgThreeZero.minWritesForSuccess = some 0) →
      stoThree.minWritesForSuccess = (stoThree.replicas.length : Int)) ∧
    (∀ v : Int, cfgThreeZero.minWritesForSuccess = some v → v ≠ 0 →
      stoThree.minWritesForSuccess = v) ∧
    (∀ v : Int, cfgThreeZero.minWritesForSuccess = some v → 1 ≤ v →
      v ≤ (cfgThreeZero.backends.length : Int) →
      1 ≤ stoThree.minWritesForSuccess ∧
      stoThree.minWritesForSuccess ≤ (stoThree.replicas.length : Int)) :=
  newFromConfig_spec ldResolveAll cfgThreeZero stoThree rfl

theorem fetchLoop_find_success (f : FetchOut) :
    ∀ (outs : List FetchOut) (last : FetchOut),
      outs.find? (fun o => o.err = none) = some f →
      fetchLoop last outs = (f, (outs.takeWhile (fun o => ¬ o.err = none)).length + 1) := by
  intro outs
  induction outs with
  | nil => intro last h; simp at h
  | cons f0 rest ih =>
    intro last h
    by_cases h0 : f0.err = none
    · rw [List.find?_cons_of_pos _ (by simpa using h0)] at h
      cases h
      simp [fetchLoop, h0, List.takeWhile_cons]
    · rw [List.find?_cons_of_neg _ (by simpa using h0)] at h
      simp [fetchLoop, h0, List.takeWhile_cons, ih f0 h]

theorem fetchLoop_all_fail :
    ∀ (outs : List FetchOut) (last : FetchOut),
      outs.find? (fun o => o.err = none) = none →
      fetchLoop last outs = (outs.getLast?.getD last, outs.length) := by
  intro outs
  induction outs with
  | nil => intro last _; simp [fetchLoop]
  | cons f0 rest ih =>
    intro last h
    by_cases h0 : f0.err = none
    · rw [List.find?_cons_of_pos _ (by simpa using h0)] at h
      cases h
    · rw [List.find?_cons_of_neg _ (by simpa using h0)] at h
      have hrec := ih f0 h
      have hstep : fetchLoop last (f0 :: rest) =
          ((fetchLoop f0 rest).1, (fetchLoop f0 rest).2 + 1) := by
        simp [fetchLoop, h0]
      rw [hstep, hrec]
      cases rest with
      | nil => simp
      | cons f1 rest' =>
        match hg : (f1 :: rest').getLast? with
        | none => exact absurd (List.getLast?_eq_none_iff.mp hg) (List.cons_ne_nil _ _)
        | some g => simp [List.getLast?_cons_cons, hg]

/-- C7: `FetchStreaming` tries backends one at a time in configured
order: it returns the outcome of the first backend whose fetch has a
nil error, having consulted exactly the backends up to and including
that one; if every backend fails it returns the last backend's outcome
(hence its error) after consulting all of them. -/
theorem FetchStreaming_order (sto : ReplicaStorage) (b : String) (outs : List FetchOut)
    (houts : outs = sto.replicas.map (fun r => r.fetch none b))
    (hne : sto.replicas ≠ []) :
    (∀ f : FetchOut, outs.find? (fun o => o.err = none) = some f →
      sto.FetchStreaming b = (f, (outs.takeWhile (fun o => ¬ o.err = none)).length + 1)) ∧
    (outs.find? (fun o => o.err = none) = none →
      some (sto.FetchStreaming b).1 = outs.getLast? ∧
      (sto.FetchStreaming b).2 = outs.length) := by
  have hout_ne : outs ≠ [] := by
    rw [houts]
    simpa using hne
  constructor
  · intro f hf
    rw [ReplicaStorage.FetchStreaming, ← houts]
    exact fetchLoop_find_success f outs ⟨none, 0, none⟩ hf
  · intro hf
    rw [ReplicaStorage.FetchStreaming, ← houts,
      fetchLoop_all_fail outs ⟨none, 0, none⟩ hf]
    match hlast : outs.getLast? with
    | none =>
      exact absurd (List.getLast?_eq_none_iff.mp hlast) hout_ne
    | some g => simp

/-- A backend that fails every fetch. -/
def failingBackend : Backend := ⟨"b1", fun _ _ => ⟨none, 0, some "miss"⟩⟩

/-- A backend that serves every fetch with stream handle 2, size 7. -/
def servingBackend : Backend := ⟨"b2", fun _ _ => ⟨some 2, 7, none⟩⟩

/-- A two-backend store: the first backend lacks every blob, the second
has them. -/
def stoTwo : ReplicaStorage :=
  ⟨0, ["/b1/", "/b2/"], [failingBackend, servingBackend], 2, none⟩

/-- Witness for C7 at a concrete input: backend 1 lacks the blob,
backend 2 has it; the fetch returns backend 2's stream and size after
consulting both. -/
theorem FetchStreaming_order_witness :
    stoTwo.FetchStreaming "ref" = (⟨some 2, 7, none⟩, 2) :=
  (FetchStreaming_order stoTwo "ref"
      (stoTwo.replicas.map (fun r : Backend => r.fetch none "ref")) rfl
      (List.cons_ne_nil _ _)).1 ⟨some 2, 7, none⟩ (by decide)

/-- C9: `WrapContext` returns a store that shares the blob-hub
partition map, the backend-prefix list, the backend list and
`minWritesForSuccess` of the original and differs only in the context
field, which holds the given request; being a pure function of the
original store, it leaves the original unchanged. -/
theorem WrapContext_frame (sto : ReplicaStorage) (req : Request) :
    (sto.WrapContext req).hub = sto.hub ∧
    (sto.WrapContext req).replicaPrefixes = sto.replicaPrefixes ∧
    (sto.WrapContext req).replicas = sto.replicas ∧
    (sto.WrapContext req).minWritesForSuccess = sto.minWritesForSuccess ∧
    (sto.WrapContext req).ctx = some req :=
  ⟨rfl, rfl, rfl, rfl, rfl⟩

/-- C10: `FetchStreaming` is independent of the request-scoped
context: it iterates the raw `replicas` list, never
`wrappedReplicas()`, and invokes each backend without a request
context, so on the store returned by `WrapContext` it behaves exactly
as on the original -- for every store, request and blob reference,
including backends whose fetch behaviour depends on the context they
are invoked under. -/
theorem FetchStreaming_ctx_independent (sto : ReplicaStorage) (req : Request)
    (b : String) :
    (sto.WrapContext req).FetchStreaming b = sto.FetchStreaming b := rfl

end Replica
